import Mathlib

/-!
Verification of the fluent validation engine: the chain data model, the
left-to-right AND/OR evaluation algorithm with short-circuiting and the
message-aggregation policy, plus the zero-divisor behaviour of the
multiple-of numeric rules.
-/

set_option maxHeartbeats 1000000

/-- ValidationResult represents the outcome of a validation step
(fields IsValid and Message of the source struct). -/
structure ValidationResult where
  IsValid : Bool
  Message : List String
deriving DecidableEq

/-- Success returns a successful ValidationResult with an empty message slice. -/
def Success : ValidationResult := ⟨true, []⟩

/-- Fail returns a failed ValidationResult with the provided messages. -/
def Fail (msg : List String) : ValidationResult := ⟨false, msg⟩

/-- The logical operator tag of a chained step (opAnd / opOr). -/
inductive logicalOp where
  | opAnd
  | opOr
deriving DecidableEq

/-- A chained step: a validator together with its logical operator tag.
The validator is pure from the engine's point of view, so it is embedded
as the ValidationResult its invocation returns. -/
structure chainedStep where
  validator : ValidationResult
  op : logicalOp
deriving DecidableEq

/-- One iteration of the evaluation loop of Validate for a step after the
first, acting on the accumulated pair (accValid, messages): an AND step is
skipped when accValid is already false, otherwise its failure messages are
appended and accValid becomes accValid && res.IsValid; an OR step is
skipped when accValid is already true, otherwise a passing rule clears the
whole message list and a failing rule appends its messages, with accValid
becoming accValid || res.IsValid. -/
def stepEval (acc : Bool × List String) : chainedStep → Bool × List String
  | ⟨res, .opAnd⟩ =>
    if acc.1 = false then acc
    else
      (acc.1 && res.IsValid,
        if res.IsValid = false ∧ res.Message.length > 0 then acc.2 ++ res.Message else acc.2)
  | ⟨res, .opOr⟩ =>
    if acc.1 = true then acc
    else
      (acc.1 || res.IsValid,
        if res.IsValid = true then []
        else if res.Message.length > 0 then acc.2 ++ res.Message else acc.2)

/-- The accumulator seeded by the unconditionally evaluated first step:
accValid is its IsValid and, on failure with a non-empty message list, its
messages start the list. -/
def initAcc (first : chainedStep) : Bool × List String :=
  (first.validator.IsValid,
    if first.validator.IsValid = false ∧ first.validator.Message.length > 0 then
      first.validator.Message
    else [])

/-- Validate evaluates the chain left-to-right, applying AND/OR semantics
with short-circuiting, exactly as the source loop: empty chain returns
Success; the first step seeds the accumulator; each later step goes
through stepEval; a true accumulator at the end yields Success, a false
one yields a failure carrying the accumulated messages. -/
def Validate (steps : List chainedStep) : ValidationResult :=
  match steps with
  | [] => Success
  | first :: rest =>
    let fin := rest.foldl stepEval (initAcc first)
    if fin.1 = true then Success else ⟨false, fin.2⟩

/-- Whether the loop body invokes a step's rule given the current
accumulator: the short-circuit tests of the source skip an AND step when
accValid is false and an OR step when accValid is true. -/
def stepInvoked (accValid : Bool) (step : chainedStep) : Bool :=
  match step.op with
  | .opAnd => accValid
  | .opOr => !accValid

/-- The accumulator transition of stepEval projected to accValid
(messages never influence control flow). -/
def accStep (accValid : Bool) (step : chainedStep) : Bool :=
  match step.op with
  | .opAnd => if accValid = false then accValid else accValid && step.validator.IsValid
  | .opOr => if accValid = true then accValid else accValid || step.validator.IsValid

/-- Indices (starting at i) of the steps of the remaining list whose rules
the evaluation loop invokes, starting from the accumulator accValid: the
invocation trace of the loop of Validate. -/
def invokedFrom (accValid : Bool) (i : Nat) : List chainedStep → List Nat
  | [] => []
  | step :: rest =>
    if stepInvoked accValid step then
      i :: invokedFrom (accStep accValid step) (i + 1) rest
    else
      invokedFrom (accStep accValid step) (i + 1) rest

/-- Indices of the steps whose rules Validate invokes: the first step is
always invoked, later steps according to the short-circuit tests. -/
def invoked : List chainedStep → List Nat
  | [] => []
  | first :: rest => 0 :: invokedFrom first.validator.IsValid 1 rest

/-- The accumulator value just before the loop of Validate processes step
i of rest (i = 0 is the state right after the first step seeded it). -/
def accBefore (first : chainedStep) (rest : List chainedStep) (i : Nat) : Bool :=
  ((rest.take i).foldl stepEval (initAcc first)).1

/-- A chained step whose validator may depend on an external world
(time, outside state): the engine re-invokes it at each evaluation. -/
structure WStep (W : Type) where
  validator : W → ValidationResult
  op : logicalOp

/-- Evaluating a chain in world w: each rule is freshly invoked in w and
the engine reduces the resulting pure steps. -/
def ValidateW {W : Type} (w : W) (steps : List (WStep W)) : ValidationResult :=
  Validate (steps.map (fun st => ⟨st.validator w, st.op⟩))

/-- IntMultipleOf with Go int modelled as ℤ; Go's % is the truncated
remainder (Int.tmod). The source condition m == 0 || v%m != 0 short
circuits, so the remainder is never taken with a zero divisor. -/
def IntMultipleOf (v m : Int) : ValidationResult :=
  if m = 0 ∨ v.tmod m ≠ 0 then Fail ["must be a multiple of " ++ toString m]
  else Success

/-- Rendering of the divisor for the failure text of FloatMultipleOf
(trimFloatZeros of the source); on the rational model of float64 the
canonical rational rendering stands in. Only the zero-divisor branch of
FloatMultipleOf carries an exactly modelled message. -/
def trimFloatZeros (q : ℚ) : String := toString q

/-- FloatMultipleOf with Go float64 modelled as ℚ: the zero-divisor branch
returns first and performs no arithmetic, exactly as the source; otherwise
the quotient v / m is truncated toward zero (float64(int64(q))) and the
absolute remainder is compared against the 1e-9 tolerance. -/
def FloatMultipleOf (v m : ℚ) : ValidationResult :=
  if m = 0 then Fail ["must be a multiple of 0 is undefined"]
  else
    let q := v / m
    let qi : ℚ := ((q.num.tdiv (q.den : Int) : Int) : ℚ)
    let r := |v - qi * m|
    if r > 1 / 1000000000 then Fail ["must be a multiple of " ++ trimFloatZeros m]
    else Success

/-- C6: Validate on a chain with zero steps returns isValid true with
empty messages and invokes no rules. -/
theorem C6_empty_chain : Validate [] = ⟨true, []⟩ ∧ invoked [] = [] :=
  ⟨rfl, rfl⟩

/-- C4: whenever Validate returns a result with isValid true, its message
list is empty. -/
theorem C4_valid_implies_no_messages (steps : List chainedStep)
    (h : (Validate steps).IsValid = true) : (Validate steps).Message = [] := by
  cases steps with
  | nil => rfl
  | cons first rest =>
    by_cases hb : (rest.foldl stepEval (initAcc first)).1 = true
    · simp [Validate, hb, Success]
    · simp [Validate, hb] at h

/-- Witness for C4 at the empty chain, whose result is valid. -/
theorem C4_valid_implies_no_messages_witness : (Validate []).Message = [] :=
  C4_valid_implies_no_messages [] rfl

/-- C1: an OR step reached with the accumulator false whose rule passes
clears the entire accumulated message list (state becomes (true, []));
in particular the chain AND(pass), AND(fail "x"), OR(pass) evaluates to
isValid true with no messages. -/
theorem C1_or_success_clears_all_messages
    (msgs : List String) (step : chainedStep)
    (hop : step.op = .opOr) (hv : step.validator.IsValid = true) :
    stepEval (false, msgs) step = (true, []) ∧
    Validate [⟨⟨true, []⟩, .opAnd⟩, ⟨⟨false, ["x"]⟩, .opAnd⟩, ⟨⟨true, []⟩, .opOr⟩]
      = ⟨true, []⟩ := by
  refine ⟨?_, rfl⟩
  rcases step with ⟨res, op⟩
  cases op with
  | opAnd => cases hop
  | opOr => simp_all [stepEval]

/-- Witness for C1 at a concrete message list and passing OR step. -/
theorem C1_or_success_clears_all_messages_witness :
    stepEval (false, ["a"]) ⟨⟨true, []⟩, .opOr⟩ = (true, []) ∧
    Validate [⟨⟨true, []⟩, .opAnd⟩, ⟨⟨false, ["x"]⟩, .opAnd⟩, ⟨⟨true, []⟩, .opOr⟩]
      = ⟨true, []⟩ :=
  C1_or_success_clears_all_messages ["a"] ⟨⟨true, []⟩, .opOr⟩ rfl rfl

/-- C2: once the accumulator is false, a run of AND steps is skipped
entirely: no rule among them is invoked, the accumulator and the messages
are unchanged; the chain of three failing ANDs reports only the first
failure message and invokes only step 0. -/
theorem C2_and_short_circuit
    (msgs : List String) (rest : List chainedStep)
    (hall : ∀ st ∈ rest, st.op = .opAnd) :
    rest.foldl stepEval (false, msgs) = (false, msgs) ∧
    (∀ i : Nat, invokedFrom false i rest = []) ∧
    Validate [⟨⟨false, ["e1"]⟩, .opAnd⟩, ⟨⟨false, ["e2"]⟩, .opAnd⟩, ⟨⟨false, ["e3"]⟩, .opAnd⟩]
      = ⟨false, ["e1"]⟩ ∧
    invoked [⟨⟨false, ["e1"]⟩, .opAnd⟩, ⟨⟨false, ["e2"]⟩, .opAnd⟩, ⟨⟨false, ["e3"]⟩, .opAnd⟩]
      = [0] := by
  refine ⟨?_, ?_, rfl, rfl⟩
  · induction rest with
    | nil => rfl
    | cons st rest ih =>
      rcases st with ⟨res, op⟩
      have hop := hall ⟨res, op⟩ (List.mem_cons_self _ _)
      simp only at hop
      subst hop
      simp only [List.foldl_cons, stepEval, if_pos rfl]
      exact ih (fun st hst => hall st (List.mem_cons_of_mem _ hst))
  · intro i
    induction rest generalizing i with
    | nil => rfl
    | cons st rest ih =>
      rcases st with ⟨res, op⟩
      have hop := hall ⟨res, op⟩ (List.mem_cons_self _ _)
      simp only at hop
      subst hop
      have h1 : stepInvoked false ⟨res, .opAnd⟩ = false := rfl
      have h2 : accStep false ⟨res, .opAnd⟩ = false := rfl
      rw [invokedFrom, h1, h2]
      simp only [Bool.false_eq_true, if_false]
      exact ih (fun st hst => hall st (List.mem_cons_of_mem _ hst)) (i + 1)

/-- Witness for C2 at a concrete message list and a one-step AND run. -/
theorem C2_and_short_circuit_witness :
    List.foldl stepEval (false, ["m"]) [⟨⟨false, ["e"]⟩, .opAnd⟩] = (false, ["m"]) ∧
    invokedFrom false 1 [⟨⟨false, ["e"]⟩, .opAnd⟩] = [] :=
  ⟨(C2_and_short_circuit ["m"] [⟨⟨false, ["e"]⟩, .opAnd⟩] (by decide)).1,
   (C2_and_short_circuit ["m"] [⟨⟨false, ["e"]⟩, .opAnd⟩] (by decide)).2.1 1⟩

/-- A failing first step seeds the accumulator with false and exactly its
own message list (appending an empty list leaves the list empty). -/
theorem initAcc_of_fail (first : chainedStep) (h : first.validator.IsValid = false) :
    initAcc first = (false, first.validator.Message) := by
  rcases first with ⟨⟨valid, msgs⟩, op⟩
  simp only at h
  subst h
  cases msgs <;> simp [initAcc]

/-- Over a run of OR steps that all fail, the loop keeps a false
accumulator, invokes every step and appends every message list in order. -/
theorem foldl_or_all_fail (rest : List chainedStep) (msgs : List String)
    (hall : ∀ st ∈ rest, st.op = .opOr ∧ st.validator.IsValid = false) :
    rest.foldl stepEval (false, msgs)
      = (false, msgs ++ (rest.map (fun st => st.validator.Message)).flatten) := by
  induction rest generalizing msgs with
  | nil => simp
  | cons st rest ih =>
    rcases st with ⟨res, op⟩
    obtain ⟨hop, hv⟩ := hall ⟨res, op⟩ (List.mem_cons_self _ _)
    simp only at hop hv
    subst hop
    rcases res with ⟨valid, rmsgs⟩
    simp only at hv
    subst hv
    have hstep : stepEval (false, msgs) ⟨⟨false, rmsgs⟩, .opOr⟩ = (false, msgs ++ rmsgs) := by
      cases rmsgs <;> simp [stepEval]
    rw [List.foldl_cons, hstep,
      ih (msgs ++ rmsgs) (fun st hst => hall st (List.mem_cons_of_mem _ hst))]
    simp

/-- Over a run of OR steps that all fail, the loop invokes every step. -/
theorem invokedFrom_or_all_fail (rest : List chainedStep) (i : Nat)
    (hall : ∀ st ∈ rest, st.op = .opOr ∧ st.validator.IsValid = false) :
    invokedFrom false i rest = List.range' i rest.length := by
  induction rest generalizing i with
  | nil => rfl
  | cons st rest ih =>
    rcases st with ⟨res, op⟩
    obtain ⟨hop, hv⟩ := hall ⟨res, op⟩ (List.mem_cons_self _ _)
    simp only at hop hv
    subst hop
    have h1 : stepInvoked false ⟨res, .opOr⟩ = true := rfl
    have h2 : accStep false ⟨res, .opOr⟩ = (false || res.IsValid) := rfl
    rw [invokedFrom, h1, h2, hv]
    simp only [Bool.false_or, if_true, List.length_cons, List.range'_succ]
    rw [ih (i + 1) (fun st hst => hall st (List.mem_cons_of_mem _ hst))]

/-- C3: in a nonempty chain of OR steps that all fail, every rule is
invoked and every failure message is collected in production order; the
chain OR(fail "a"), OR(fail "b") evaluates to isValid false with messages
["a", "b"]. -/
theorem C3_or_exhaustive_on_failure (steps : List chainedStep) (hne : steps ≠ [])
    (hall : ∀ st ∈ steps, st.op = .opOr ∧ st.validator.IsValid = false) :
    Validate steps = ⟨false, (steps.map (fun st => st.validator.Message)).flatten⟩ ∧
    invoked steps = List.range steps.length ∧
    Validate [⟨⟨false, ["a"]⟩, .opOr⟩, ⟨⟨false, ["b"]⟩, .opOr⟩] = ⟨false, ["a", "b"]⟩ := by
  refine ⟨?_, ?_, rfl⟩
  · cases steps with
    | nil => exact absurd rfl hne
    | cons first rest =>
      have hfirst := hall first (List.mem_cons_self _ _)
      have hrest : ∀ st ∈ rest, st.op = .opOr ∧ st.validator.IsValid = false :=
        fun st hst => hall st (List.mem_cons_of_mem _ hst)
      have hfold := foldl_or_all_fail rest first.validator.Message hrest
      simp only [Validate, initAcc_of_fail first hfirst.2, hfold]
      simp
  · cases steps with
    | nil => exact absurd rfl hne
    | cons first rest =>
      have hfirst := hall first (List.mem_cons_self _ _)
      have hrest : ∀ st ∈ rest, st.op = .opOr ∧ st.validator.IsValid = false :=
        fun st hst => hall st (List.mem_cons_of_mem _ hst)
      rw [invoked, hfirst.2, invokedFrom_or_all_fail rest 1 hrest,
        List.length_cons, List.range_eq_range', List.range'_succ]

/-- Witness for C3 at the concrete all-failing OR chain of the spec. -/
theorem C3_or_exhaustive_on_failure_witness :
    Validate [⟨⟨false, ["a"]⟩, .opOr⟩, ⟨⟨false, ["b"]⟩, .opOr⟩]
      = ⟨false, (([⟨⟨false, ["a"]⟩, .opOr⟩, ⟨⟨false, ["b"]⟩, .opOr⟩] : List chainedStep).map
          (fun st => st.validator.Message)).flatten⟩ ∧
    invoked [⟨⟨false, ["a"]⟩, .opOr⟩, ⟨⟨false, ["b"]⟩, .opOr⟩] = List.range 2 :=
  ⟨(C3_or_exhaustive_on_failure _ (by decide) (by decide)).1,
   (C3_or_exhaustive_on_failure _ (by decide) (by decide)).2.1⟩

/-- C5: the first step of a nonempty chain is always among the invoked
steps regardless of its operator tag, and a single-step chain (so its one
step is the first) evaluates that step whatever its tag: the result's
validity is the rule's and, on failure, the rule's messages are reported. -/
theorem C5_first_step_always_runs (first : chainedStep) (rest : List chainedStep) :
    0 ∈ invoked (first :: rest) ∧
    (∀ (v : ValidationResult) (op : logicalOp),
      Validate [⟨v, op⟩] = if v.IsValid = true then ⟨true, []⟩ else ⟨false, v.Message⟩) := by
  constructor
  · simp [invoked]
  · intro v op
    rcases v with ⟨valid, msgs⟩
    cases valid <;> cases msgs <;> simp [Validate, initAcc, Success]

/-- Witness for C5 at single OR-tagged chains. -/
theorem C5_first_step_always_runs_witness :
    0 ∈ invoked [⟨⟨true, []⟩, .opOr⟩] ∧
    Validate [⟨⟨false, ["w"]⟩, .opOr⟩]
      = if (false : Bool) = true then ⟨true, []⟩ else ⟨false, ["w"]⟩ :=
  ⟨(C5_first_step_always_runs ⟨⟨true, []⟩, .opOr⟩ []).1,
   (C5_first_step_always_runs ⟨⟨true, []⟩, .opOr⟩ []).2 ⟨false, ["w"]⟩ .opOr⟩

/-- C7: evaluation is a pure reduction of the chain: evaluating the same
chain twice, each time freshly re-invoking every rule, yields identical
results whenever the rules are deterministic (world-independent). -/
theorem C7_repeat_evaluation_deterministic {W : Type} (chain : List (WStep W)) (w w' : W)
    (hdet : ∀ st ∈ chain, ∀ u u' : W, st.validator u = st.validator u') :
    ValidateW w chain = ValidateW w' chain := by
  unfold ValidateW
  congr 1
  exact List.map_congr_left (fun st hst => by rw [hdet st hst w w'])

/-- Witness for C7 with a deterministic one-step chain over Nat worlds. -/
theorem C7_repeat_evaluation_deterministic_witness :
    ValidateW (0 : Nat) [⟨fun _ => ⟨true, []⟩, .opAnd⟩]
      = ValidateW (1 : Nat) [⟨fun _ => ⟨true, []⟩, .opAnd⟩] :=
  C7_repeat_evaluation_deterministic _ 0 1 (by
    intro st hst u u'
    rw [List.mem_singleton] at hst
    subst hst
    rfl)

/-- The accumulator component of a loop iteration is the accStep
transition of the previous accumulator. -/
theorem stepEval_fst (acc : Bool × List String) (st : chainedStep) :
    (stepEval acc st).1 = accStep acc.1 st := by
  rcases st with ⟨res, op⟩
  cases op <;> by_cases h : acc.1 = false <;>
    simp_all [stepEval, accStep]

/-- Unfolding accBefore one step: the accumulator before step i + 1 is the
accStep transition applied to the accumulator before step i. -/
theorem accBefore_succ (first : chainedStep) (rest : List chainedStep) (i : Nat)
    (h : i < rest.length) :
    accBefore first rest (i + 1) = accStep (accBefore first rest i) (rest.get ⟨i, h⟩) := by
  unfold accBefore
  rw [List.take_succ]
  have hg : rest[i]? = some (rest.get ⟨i, h⟩) := by
    rw [List.getElem?_eq_getElem h, List.get_eq_getElem]
  rw [hg, List.foldl_append]
  simp only [Option.toList_some, List.foldl_cons, List.foldl_nil]
  exact stepEval_fst _ _

/-- C8: the two-state machine view of the loop: for every step after the
first, an AND step is invoked only in the passing state and its transition
can only keep or lower the accumulator, an OR step is invoked only in the
failing state and its transition can only keep or raise the accumulator;
the terminal accumulator is the validity Validate reports. -/
theorem C8_state_machine (first : chainedStep) (rest : List chainedStep) (i : Nat)
    (h : i < rest.length) :
    ((rest.get ⟨i, h⟩).op = .opAnd →
      (stepInvoked (accBefore first rest i) (rest.get ⟨i, h⟩) = true →
        accBefore first rest i = true) ∧
      (accBefore first rest (i + 1) = true → accBefore first rest i = true)) ∧
    ((rest.get ⟨i, h⟩).op = .opOr →
      (stepInvoked (accBefore first rest i) (rest.get ⟨i, h⟩) = true →
        accBefore first rest i = false) ∧
      (accBefore first rest i = true → accBefore first rest (i + 1) = true)) ∧
    (Validate (first :: rest)).IsValid = accBefore first rest rest.length := by
  refine ⟨?_, ?_, ?_⟩
  · intro hop
    rw [List.get_eq_getElem] at hop
    rw [accBefore_succ first rest i h]
    cases hb : accBefore first rest i <;>
      simp [stepInvoked, accStep, hop]
  · intro hop
    rw [List.get_eq_getElem] at hop
    rw [accBefore_succ first rest i h]
    cases hb : accBefore first rest i <;>
      simp [stepInvoked, accStep, hop]
  · unfold accBefore
    rw [List.take_length]
    by_cases hb : (rest.foldl stepEval (initAcc first)).1 = true <;>
      simp [Validate, hb, Success]

/-- Witness for C8 at a two-step all-passing AND chain. -/
theorem C8_state_machine_witness :
    accBefore ⟨⟨true, []⟩, .opAnd⟩ [⟨⟨true, []⟩, .opAnd⟩] 0 = true :=
  ((C8_state_machine ⟨⟨true, []⟩, .opAnd⟩ [⟨⟨true, []⟩, .opAnd⟩] 0 (by decide)).1
    rfl).1 (by decide)

/-- C9: a zero divisor is reported as a value-typed failure by both
multiple-of rules: IntMultipleOf v 0 fails with "must be a multiple of 0"
while FloatMultipleOf q 0 fails with the distinct literal message
"must be a multiple of 0 is undefined", and the two texts differ. -/
theorem C9_zero_divisor_failure (v : Int) (q : ℚ) :
    IntMultipleOf v 0 = Fail ["must be a multiple of 0"] ∧
    FloatMultipleOf q 0 = Fail ["must be a multiple of 0 is undefined"] ∧
    "must be a multiple of 0" ≠ "must be a multiple of 0 is undefined" := by
  refine ⟨?_, ?_, by decide⟩
  · unfold IntMultipleOf
    rw [if_pos (Or.inl rfl)]
    rfl
  · unfold FloatMultipleOf
    rw [if_pos rfl]

/-- Witness for C9 at divisor 0 of a concrete integer. -/
theorem C9_zero_divisor_failure_witness :
    IntMultipleOf 7 0 = Fail ["must be a multiple of 0"] :=
  (C9_zero_divisor_failure 7 0).1

/-- Each loop iteration only ever adds messages of a failing rule: a
message of the new accumulator either was present before or belongs to the
message list of the step's failing validator. -/
theorem stepEval_message_src (acc : Bool × List String) (st : chainedStep) (m : String)
    (hm : m ∈ (stepEval acc st).2) :
    m ∈ acc.2 ∨ (st.validator.IsValid = false ∧ m ∈ st.validator.Message) := by
  rcases acc with ⟨ab, amsgs⟩
  rcases st with ⟨⟨valid, rmsgs⟩, op⟩
  cases op <;> cases valid <;> cases ab <;> cases rmsgs <;>
    simp_all [stepEval]

/-- Messages produced by the loop over a run of steps come from the
starting accumulator or from a failing validator of the run. -/
theorem foldl_message_src (rest : List chainedStep) (acc : Bool × List String) (m : String)
    (hm : m ∈ (rest.foldl stepEval acc).2) :
    m ∈ acc.2 ∨ ∃ st ∈ rest, st.validator.IsValid = false ∧ m ∈ st.validator.Message := by
  induction rest generalizing acc with
  | nil => exact Or.inl hm
  | cons st rest ih =>
    rcases ih (stepEval acc st) hm with h | ⟨st', hst', hfail, hmem⟩
    · rcases stepEval_message_src acc st m h with h' | h'
      · exact Or.inl h'
      · exact Or.inr ⟨st, List.mem_cons_self _ _, h'⟩
    · exact Or.inr ⟨st', List.mem_cons_of_mem _ hst', hfail, hmem⟩

/-- Messages of the seeded accumulator come from a failing first step. -/
theorem initAcc_message_src (first : chainedStep) (m : String)
    (hm : m ∈ (initAcc first).2) :
    first.validator.IsValid = false ∧ m ∈ first.validator.Message := by
  rcases first with ⟨⟨valid, rmsgs⟩, op⟩
  cases valid <;> cases rmsgs <;> simp_all [initAcc]

/-- C10: every message Validate reports comes from a rule invocation that
returned isValid false: a passing rule's message list is never included,
and a failing rule with an empty message list contributes nothing, so an
overall failing result may carry no messages at all. -/
theorem C10_messages_only_from_failures :
    (∀ (steps : List chainedStep) (m : String), m ∈ (Validate steps).Message →
      ∃ st ∈ steps, st.validator.IsValid = false ∧ m ∈ st.validator.Message) ∧
    Validate [⟨⟨true, ["junk"]⟩, .opAnd⟩, ⟨⟨false, ["e"]⟩, .opAnd⟩] = ⟨false, ["e"]⟩ ∧
    Validate [⟨⟨false, []⟩, .opAnd⟩] = ⟨false, []⟩ := by
  refine ⟨?_, rfl, rfl⟩
  intro steps m hm
  cases steps with
  | nil => simp [Validate, Success] at hm
  | cons first rest =>
    by_cases hb : (rest.foldl stepEval (initAcc first)).1 = true
    · rw [show Validate (first :: rest) = Success by simp [Validate, hb]] at hm
      simp [Success] at hm
    · have hm' : m ∈ (rest.foldl stepEval (initAcc first)).2 := by
        simpa [Validate, hb] using hm
      rcases foldl_message_src rest (initAcc first) m hm' with h | ⟨st, hst, hfail, hmem⟩
      · exact ⟨first, List.mem_cons_self _ _, initAcc_message_src first m h⟩
      · exact ⟨st, List.mem_cons_of_mem _ hst, hfail, hmem⟩

/-- Witness for C10 at a one-step failing chain and its message. -/
theorem C10_messages_only_from_failures_witness :
    ∃ st ∈ ([⟨⟨false, ["z"]⟩, .opAnd⟩] : List chainedStep),
      st.validator.IsValid = false ∧ "z" ∈ st.validator.Message :=
  C10_messages_only_from_failures.1 [⟨⟨false, ["z"]⟩, .opAnd⟩] "z" (by decide)
